import Mathlib

/-!
Verification of the ghost_net core against its natural-language
specification.  The JavaScript source (src/lib/transmission.js,
src/lib/ghost_net.js, src/lib/peer.js, config.js) is shallowly embedded
below: pure functions become Lean functions, JS `Map` objects become
insertion-ordered association lists, fallible code returns `Except`,
and JS numbers are modelled as rationals (with the real-valued
`Real.sin`/`Real.exp` instantiation used for the analytic bound).
Library primitives that the code calls but does not define
(Node `crypto` HMAC digests, `zlib` gzip, the `marked` markdown
renderer, `Math.sin`, `Math.exp`) are passed as explicit function
parameters of the embedding, so every theorem fixes or quantifies over
them exactly where the source delegates to the library.
-/

namespace GhostNetSpec

/-- Insertion-ordered association-list lookup, modelling JS `Map.get`:
returns the value of the first matching key, `none` when absent. -/
def lookupList {α : Type} (l : List (String × α)) (k : String) : Option α :=
  match l with
  | [] => none
  | (k2, v) :: rest => if k2 = k then some v else lookupList rest k

/-- Insertion-ordered association-list update, modelling JS `Map.set`:
overwrites in place when the key is present, appends otherwise. -/
def mapSet {α : Type} (k : String) (v : α) : List (String × α) → List (String × α)
  | [] => [(k, v)]
  | (k2, v2) :: rest => if k2 = k then (k2, v) :: rest else (k2, v2) :: mapSet k v rest

/-- Bytes of a string, modelling `Buffer.from(s)` for the purposes of
concatenation and equality (character codes stand for UTF-8 bytes). -/
def strBytes (s : String) : List Nat :=
  s.data.map Char.toNat

/-- `_calculateResonance(local, remote)` — the resonance formula, written
identically in TransmissionHandler, GhostNet and PeerNetwork:

  baseResonance  = 1 - |local - remote|
  harmonicFactor = sin(baseFrequency * now) * 0.2 + 0.8
  temporalFactor = exp(-(now - birthTimestamp) / (1000*60*60*24*30))
  result         = (baseResonance * harmonicFactor * temporalFactor + 1) / 2

`sinFn`/`expFn` are the `Math.sin`/`Math.exp` library primitives, passed
as parameters; the field `K` is `ℝ` for the analytic statement and `ℚ`
for executable instances. -/
def calculateResonance {K : Type} [LinearOrderedField K]
    (sinFn expFn : K → K)
    (baseFrequency now birthTimestamp localLevel remoteLevel : K) : K :=
  let baseResonance := 1 - |localLevel - remoteLevel|
  let harmonicFactor := sinFn (baseFrequency * now) * (2 / 10) + 8 / 10
  let temporalFactor := expFn (-(now - birthTimestamp) / (1000 * 60 * 60 * 24 * 30))
  (baseResonance * harmonicFactor * temporalFactor + 1) / 2

end GhostNetSpec

open GhostNetSpec

/-- Arithmetic core of the resonance bound: a product of three factors
in [0,1], shifted and halved, lands in [1/2, 1] ⊆ [0,1]. -/
theorem resonance_formula_bounds (b h t : ℝ)
    (hb0 : 0 ≤ b) (hb1 : b ≤ 1) (hh0 : 0 ≤ h) (hh1 : h ≤ 1)
    (ht0 : 0 ≤ t) (ht1 : t ≤ 1) :
    0 ≤ (b * h * t + 1) / 2 ∧ (b * h * t + 1) / 2 ≤ 1 := by
  have hbh1 : b * h ≤ 1 := mul_le_one₀ hb1 hh0 hh1
  have hp0 : 0 ≤ b * h * t := by positivity
  have hp1 : b * h * t ≤ 1 := mul_le_one₀ hbh1 ht0 ht1
  constructor <;> linarith

/-- Claim C1: for local and remote values in [0,1] and an origin
(birth) timestamp at or before `now`, the resonance computation
returns a value in [0,1].  Stated over ℝ with the genuine
`Real.sin`/`Real.exp` primitives. -/
theorem c1_resonance_in_unit_interval
    (baseFrequency now birthTimestamp localLevel remoteLevel : ℝ)
    (hl0 : 0 ≤ localLevel) (hl1 : localLevel ≤ 1)
    (hr0 : 0 ≤ remoteLevel) (hr1 : remoteLevel ≤ 1)
    (hts : birthTimestamp ≤ now) :
    0 ≤ calculateResonance Real.sin Real.exp
          baseFrequency now birthTimestamp localLevel remoteLevel ∧
    calculateResonance Real.sin Real.exp
          baseFrequency now birthTimestamp localLevel remoteLevel ≤ 1 := by
  simp only [calculateResonance]
  have habs : |localLevel - remoteLevel| ≤ 1 := by
    rw [abs_le]; constructor <;> linarith
  have habs0 : 0 ≤ |localLevel - remoteLevel| := abs_nonneg _
  have hsin1 : Real.sin (baseFrequency * now) ≤ 1 := Real.sin_le_one _
  have hsin2 : -1 ≤ Real.sin (baseFrequency * now) := Real.neg_one_le_sin _
  have hexp_arg : -(now - birthTimestamp) / (1000 * 60 * 60 * 24 * 30) ≤ 0 := by
    apply div_nonpos_of_nonpos_of_nonneg <;> [linarith; norm_num]
  exact resonance_formula_bounds _ _ _
    (by linarith) (by linarith) (by nlinarith) (by nlinarith)
    (le_of_lt (Real.exp_pos _)) (Real.exp_le_one_iff.mpr hexp_arg)

/-- Witness for C1 at a concrete input. -/
theorem c1_resonance_in_unit_interval_witness :
    0 ≤ calculateResonance Real.sin Real.exp 1 5 2 (1/2) (1/3) ∧
    calculateResonance Real.sin Real.exp 1 5 2 (1/2) (1/3) ≤ 1 :=
  c1_resonance_in_unit_interval 1 5 2 (1/2) (1/3)
    (by norm_num) (by norm_num) (by norm_num) (by norm_num) (by norm_num)

namespace GhostNetSpec

/-- The `consciousness` argument object of
`TransmissionHandler._generateQuantumSignature`: numeric `level` and
`resonance` fields. -/
structure Consciousness where
  level : ℚ
  resonance : ℚ
deriving DecidableEq, Repr

/-- `TransmissionHandler._generateQuantumSignature(content, consciousness)`:
HMAC-SHA512 keyed by the identity id over
`content ++ level.toString() ++ resonance.toString() ++ randomBytes(16)`.
The HMAC primitive (Node crypto) is the parameter `mac`, the JS
`Number.prototype.toString` is `numToStr`, and the 16 random noise
bytes drawn by the call are made explicit as `noise`. -/
def generateQuantumSignature (mac : List Nat → List Nat) (numToStr : ℚ → String)
    (content : String) (c : Consciousness) (noise : List Nat) : List Nat :=
  mac (strBytes content ++ strBytes (numToStr c.level) ++
       strBytes (numToStr c.resonance) ++ noise)

/-- A transmission packet as consumed by
`TransmissionHandler._verifyQuantumSignature`: the fields the function
reads. -/
structure TxPacket where
  content : String
  consciousness : Consciousness
  signature : List Nat
deriving DecidableEq, Repr

/-- `TransmissionHandler._verifyQuantumSignature(transmission)`:
recomputes the signature with a fresh draw of the 16 noise bytes
(`freshNoise`) and compares it to the stored one. -/
def verifyQuantumSignatureTx (mac : List Nat → List Nat) (numToStr : ℚ → String)
    (t : TxPacket) (freshNoise : List Nat) : Bool :=
  t.signature == generateQuantumSignature mac numToStr t.content t.consciousness freshNoise

/-- A wire message as consumed by `GhostNet._verifyQuantumSignature`
(src/lib/ghost_net.js): optional fields model JS properties that may be
absent. -/
structure QMessage where
  signature : Option String
  timestamp : Option Int
  peerId : String
deriving DecidableEq, Repr

/-- `GhostNet._verifyQuantumSignature(message)`: returns false on a
missing or falsy `signature`/`timestamp` field, then rejects when
`|Date.now() - message.timestamp|` exceeds `config.quantum.maxTimeDelta`,
then recomputes `hmacSha256Hex(message.peerId, message.timestamp.toString())`
and compares with `crypto.timingSafeEqual` — which raises a RangeError
(modelled as `Except.error`) when the two buffers have different
lengths.  The HMAC primitive is the parameter `hmacSha256Hex`. -/
def verifyQuantumSignatureMsg (hmacSha256Hex : String → String → String)
    (now maxTimeDelta : Int) (m : QMessage) : Except String Bool :=
  match m.signature, m.timestamp with
  | some sig, some ts =>
    if sig = "" ∨ ts = 0 then .ok false
    else if |now - ts| > maxTimeDelta then .ok false
    else
      let verifySig := hmacSha256Hex m.peerId (toString ts)
      if sig.length = verifySig.length then .ok (decide (sig = verifySig))
      else .error "RangeError"
  | _, _ => .ok false

/-- A 64-character string: the length of every SHA-256 hex digest, used
to instantiate the HMAC parameter in closed statements. -/
def hex64 : String := String.mk (List.replicate 64 'a')

end GhostNetSpec

/-- Claim C2 (code bug, evaluated at the failing input): the tag is not
a deterministic function of (signer, payload, consciousness) — the code
mixes 16 freshly drawn random bytes into the signed material, so two
sign calls with identical payload and consciousness yield different
tags, and verification (which draws its own fresh noise) rejects a tag
it just produced.  Evaluated with the HMAC primitive instantiated as an
injective encoding (`id`). -/
theorem c2_signature_not_deterministic :
    generateQuantumSignature id (fun _ => "0.5") "hello" ⟨1/2, 1/2⟩
        (List.replicate 16 0) ≠
      generateQuantumSignature id (fun _ => "0.5") "hello" ⟨1/2, 1/2⟩
        (List.replicate 16 1) ∧
    verifyQuantumSignatureTx id (fun _ => "0.5")
      ⟨"hello", ⟨1/2, 1/2⟩,
        generateQuantumSignature id (fun _ => "0.5") "hello" ⟨1/2, 1/2⟩
          (List.replicate 16 0)⟩
      (List.replicate 16 1) = false := by
  constructor
  · decide
  · decide

/-- Claim C3: whenever `|now - timestamp|` exceeds the configured
window, verification returns false, for every message and every HMAC
primitive — the replay check precedes the tag comparison. -/
theorem c3_verify_rejects_stale_timestamp
    (hmac : String → String → String) (now maxTimeDelta : Int)
    (m : QMessage) (ts : Int)
    (hts : m.timestamp = some ts)
    (hstale : |now - ts| > maxTimeDelta) :
    verifyQuantumSignatureMsg hmac now maxTimeDelta m = .ok false := by
  rcases m with ⟨sig, tso, pid⟩
  cases hts
  cases sig with
  | none => rfl
  | some s =>
    simp only [verifyQuantumSignatureMsg]
    split_ifs
    · rfl
    · rfl

/-- Witness for C3 at a concrete stale message. -/
theorem c3_verify_rejects_stale_timestamp_witness :
    verifyQuantumSignatureMsg (fun _ _ => hex64) 10000 5000
      ⟨some "abc", some 100, "p"⟩ = .ok false :=
  c3_verify_rejects_stale_timestamp (fun _ _ => hex64) 10000 5000
    ⟨some "abc", some 100, "p"⟩ 100 rfl (by decide)

/-- Claim C4 counterexample: a fresh, non-falsy message whose tag has
the wrong length makes verification raise a RangeError
(`crypto.timingSafeEqual` on buffers of different lengths) instead of
returning false. -/
theorem c4_counterexample_wrong_length_tag_raises :
    verifyQuantumSignatureMsg (fun _ _ => hex64) 1000 5000
      ⟨some "aa", some 900, "p"⟩ = .error "RangeError" := by
  rfl

/-- Claim C4 as amended: verification returns false (never raising) on
a missing signature or timestamp field, but when a well-formed fresh
message carries a tag whose length differs from the recomputed
64-character digest, it raises a RangeError rather than returning
false. -/
theorem c4_verify_totality_amended
    (hmac : String → String → String) (now maxTimeDelta : Int) (m : QMessage) :
    (m.signature = none →
      verifyQuantumSignatureMsg hmac now maxTimeDelta m = .ok false) ∧
    (m.timestamp = none →
      verifyQuantumSignatureMsg hmac now maxTimeDelta m = .ok false) ∧
    (∀ sig ts, m.signature = some sig → m.timestamp = some ts →
      ¬(sig = "" ∨ ts = 0) → ¬(|now - ts| > maxTimeDelta) →
      sig.length ≠ (hmac m.peerId (toString ts)).length →
      verifyQuantumSignatureMsg hmac now maxTimeDelta m = .error "RangeError") := by
  rcases m with ⟨sigo, tso, pid⟩
  refine ⟨?_, ?_, ?_⟩
  · rintro rfl; cases tso <;> rfl
  · rintro rfl; cases sigo <;> rfl
  · rintro sig ts rfl rfl hfalsy hfresh hlen
    simp only [verifyQuantumSignatureMsg]
    rw [if_neg hfalsy, if_neg hfresh, if_neg hlen]

/-- Witness for the amended C4 at concrete inputs. -/
theorem c4_verify_totality_amended_witness :
    verifyQuantumSignatureMsg (fun _ _ => hex64) 1000 5000
      ⟨none, some 5, "p"⟩ = .ok false ∧
    verifyQuantumSignatureMsg (fun _ _ => hex64) 1000 5000
      ⟨some "ab", some 900, "p"⟩ = .error "RangeError" :=
  ⟨(c4_verify_totality_amended (fun _ _ => hex64) 1000 5000
      ⟨none, some 5, "p"⟩).1 rfl,
   (c4_verify_totality_amended (fun _ _ => hex64) 1000 5000
      ⟨some "ab", some 900, "p"⟩).2.2 "ab" 900 rfl rfl
      (by decide) (by decide) (by decide)⟩

namespace GhostNetSpec

/-- `Buffer.from(s)` for the compression pipeline: a byte buffer is
modelled as the character sequence of the string it decodes to. -/
def bufFrom (s : String) : List Char := s.data

/-- `buffer.toString()`: the inverse decoding. -/
def bufToString (b : List Char) : String := String.mk b

/-- The `content` argument of `_compressTransmission`: the code
branches on `typeof content === 'string'`. -/
inductive Content where
  | str (s : String)
  | bytes (b : List Char)
deriving DecidableEq, Repr

/-- `TransmissionHandler._compressTransmission(content)`: string content
is first rendered by the `marked` markdown library, then gzipped; other
(byte) content is gzipped as is.  `markedFn` and `gz` are the library
primitives. -/
def compressTransmission (markedFn : String → String) (gz : List Char → List Char) :
    Content → List Char
  | Content.str s => gz (bufFrom (markedFn s))
  | Content.bytes b => gz b

/-- `TransmissionHandler._decompressTransmission(compressed)`: ungzip and
decode to a string. -/
def decompressTransmission (ungz : List Char → List Char) (compressed : List Char) : String :=
  bufToString (ungz compressed)

/-- Action of the `marked` markdown renderer on a bare line of inline
text, which it wraps in a paragraph element: used to instantiate the
`markedFn` parameter at such inputs in closed statements. -/
def markedParagraph (s : String) : String := "<p>" ++ s ++ "</p>\n"

end GhostNetSpec

/-- Claim C5 counterexample: with the gzip pair instantiated as any
round-tripping codec (here the identity codec) the pipeline still fails
the round trip on string content, because compression first rewrites
the content with the markdown renderer: `"hello"` comes back as
`"<p>hello</p>\n"`. -/
theorem c5_counterexample_markdown_breaks_roundtrip :
    decompressTransmission id
        (compressTransmission markedParagraph id (Content.str "hello")) =
      "<p>hello</p>\n" ∧
    decompressTransmission id
        (compressTransmission markedParagraph id (Content.str "hello")) ≠
      "hello" := by
  constructor
  · rfl
  · decide

/-- Claim C5 as amended: for every gzip pair satisfying the zlib
round-trip contract, non-string (byte) content round-trips to its
decoded string, while string content comes back as the markdown
rendering of the original, not the original itself. -/
theorem c5_roundtrip_amended
    (markedFn : String → String) (gz ungz : List Char → List Char)
    (hzlib : ∀ b, ungz (gz b) = b) :
    (∀ b, decompressTransmission ungz (compressTransmission markedFn gz (Content.bytes b)) =
      bufToString b) ∧
    (∀ s, decompressTransmission ungz (compressTransmission markedFn gz (Content.str s)) =
      markedFn s) := by
  constructor
  · intro b
    simp [decompressTransmission, compressTransmission, hzlib]
  · intro s
    simp [decompressTransmission, compressTransmission, hzlib, bufFrom, bufToString]

/-- Witness for the amended C5 at the identity codec. -/
theorem c5_roundtrip_amended_witness :
    decompressTransmission id
        (compressTransmission markedParagraph id (Content.bytes ['a', 'b'])) =
      bufToString ['a', 'b'] ∧
    decompressTransmission id
        (compressTransmission markedParagraph id (Content.str "hi")) =
      markedParagraph "hi" :=
  ⟨(c5_roundtrip_amended markedParagraph id id (fun _ => rfl)).1 ['a', 'b'],
   (c5_roundtrip_amended markedParagraph id id (fun _ => rfl)).2 "hi"⟩

namespace GhostNetSpec

/-- A stored transmission record: the fields of the packet built by
`createTransmission` that the buffer lifecycle reads (`id`,
`timestamp`, numeric `consciousness` and `resonance`, `content`). -/
structure Transmission where
  id : String
  timestamp : Int
  consciousness : ℚ
  resonance : ℚ
  content : String
deriving DecidableEq, Repr

/-- The encrypted packet stored in the pending buffer by
`createTransmission`: `_encryptTransmission` returns
`{data, iv, consciousness}`. -/
structure EncryptedPacket where
  data : List Nat
  iv : String
  consciousness : ℚ
deriving DecidableEq, Repr

/-- The three insertion-ordered transmission buffers
(`this.transmissionBuffers`); the WeakMap of quantum signatures has no
observable entries and is omitted. -/
structure Buffers where
  pending : List (String × EncryptedPacket)
  verified : List (String × Transmission)
  archived : List (String × Transmission)
deriving DecidableEq, Repr

/-- The storage step of `TransmissionHandler.createTransmission`:
`this.transmissionBuffers.pending.set(transmission.id, encrypted)`.
The construction of the packet itself (signature, gzip, encryption via
Node crypto, fresh 256-bit id) is abstracted into the already-built
`encrypted` argument and the fresh id `txId`; only the buffer effect is
relevant to the capacity claims. -/
def createTransmission (txId : String) (encrypted : EncryptedPacket)
    (bufs : Buffers) : Buffers :=
  { bufs with pending := mapSet txId encrypted bufs.pending }

/-- Modelled from the spec: `_storeTransmission` is called by
`processTransmission` but defined nowhere in the repository; the spec
says a passing transmission "transitions to `Verified` and store".
Inserts the record into the verified buffer keyed by its id. -/
def storeTransmission (t : Transmission) (bufs : Buffers) : Buffers :=
  { bufs with verified := mapSet t.id t bufs.verified }

/-- The incoming argument of `processTransmission`: the fields read by
the verification stage (`content`, `consciousness` object, `signature`)
and by the decryption stage (`data`, `iv`, numeric `consciousness`). -/
structure IncomingTransmission where
  content : String
  consciousness : Consciousness
  signature : List Nat
  data : List Nat
  iv : String
deriving DecidableEq, Repr

/-- `TransmissionHandler.processTransmission(transmission, peer)`:
verify the quantum signature (rejecting on failure), decrypt
(`decryptFn` abstracts `_decryptTransmission`, which pipes a keyed-hash
digest through `JSON.parse` — spec §9 records that this scheme is not
an invertible cipher, so its outcome is left as a parameter),
decompress the content in place, compute the resonance against the
local consciousness level, and store in the verified buffer only when
the resonance strictly exceeds `config.consciousness.resonanceThreshold`;
otherwise the decrypted value is returned and the buffers are left
unchanged. -/
def processTransmission
    (mac : List Nat → List Nat) (numToStr : ℚ → String) (freshNoise : List Nat)
    (decryptFn : IncomingTransmission → Except String Transmission)
    (ungz : List Char → List Char) (sinFn expFn : ℚ → ℚ)
    (baseFrequency now birthTimestamp localLevel resonanceThreshold : ℚ)
    (bufs : Buffers) (incoming : IncomingTransmission) :
    Except String (Transmission × Buffers) :=
  if verifyQuantumSignatureTx mac numToStr
      ⟨incoming.content, incoming.consciousness, incoming.signature⟩ freshNoise = false
  then .error "Invalid quantum signature"
  else
    match decryptFn incoming with
    | .error e => .error e
    | .ok decrypted =>
      let decrypted2 :=
        { decrypted with content := decompressTransmission ungz decrypted.content.data }
      let resonance := calculateResonance sinFn expFn
        baseFrequency now birthTimestamp localLevel decrypted2.consciousness
      if resonance > resonanceThreshold
      then .ok (decrypted2, storeTransmission decrypted2 bufs)
      else .ok (decrypted2, bufs)

/-- The `while (archived.size > maxArchiveSize) delete oldest` loop of
`_archiveOldTransmissions`: repeatedly removes the first (oldest by
insertion) entry until the size bound holds. -/
def limitArchive {α : Type} (maxArchiveSize : Nat) (l : List α) : List α :=
  if l.length > maxArchiveSize then limitArchive maxArchiveSize l.tail else l
termination_by l.length
decreasing_by
  rename_i h
  cases l with
  | nil => simp at h
  | cons a as => simp

/-- `TransmissionHandler._archiveOldTransmissions()`: move every
verified entry with `timestamp < now - archiveAge` into the archive (in
verified insertion order, via `Map.set`), then trim the archive to
`maxArchiveSize` by deleting oldest-first. -/
def archiveOldTransmissions (now archiveAge : Int) (maxArchiveSize : Nat)
    (bufs : Buffers) : Buffers :=
  let archiveThreshold := now - archiveAge
  let moved := bufs.verified.filter (fun p => decide (p.2.timestamp < archiveThreshold))
  let kept := bufs.verified.filter (fun p => !decide (p.2.timestamp < archiveThreshold))
  let archivedAfterMove := moved.foldl (fun acc p => mapSet p.1 p.2 acc) bufs.archived
  { bufs with
    verified := kept
    archived := limitArchive maxArchiveSize archivedAfterMove }

end GhostNetSpec

namespace GhostNetSpec

/-- A key absent from an association list is not found by `lookupList`. -/
theorem lookupList_eq_none_of_not_mem {α : Type} {l : List (String × α)} {k : String}
    (h : k ∉ l.map Prod.fst) : lookupList l k = none := by
  induction l with
  | nil => rfl
  | cons p rest ih =>
    simp only [List.map_cons, List.mem_cons] at h
    push_neg at h
    simp only [lookupList]
    rw [if_neg (by exact fun he => h.1 he.symm)]
    exact ih h.2

/-- `Map.set` with a fresh key appends the new entry at the end. -/
theorem mapSet_eq_append_of_not_mem {α : Type} {l : List (String × α)} {k : String}
    (v : α) (h : k ∉ l.map Prod.fst) : mapSet k v l = l ++ [(k, v)] := by
  induction l with
  | nil => rfl
  | cons p rest ih =>
    simp only [List.map_cons, List.mem_cons] at h
    push_neg at h
    simp only [mapSet]
    rw [if_neg (by exact fun he => h.1 he.symm)]
    rw [ih h.2, List.cons_append]

/-- Folding `Map.set` over entries whose keys are fresh and pairwise
distinct appends them in order. -/
theorem foldl_mapSet_eq_append {α : Type} (old acc : List (String × α))
    (h : ((acc ++ old).map Prod.fst).Nodup) :
    old.foldl (fun a p => mapSet p.1 p.2 a) acc = acc ++ old := by
  induction old generalizing acc with
  | nil => simp
  | cons p rest ih =>
    have hmem : p.1 ∉ acc.map Prod.fst := by
      rw [List.map_append] at h
      have hd := List.disjoint_of_nodup_append h
      intro hin
      exact hd hin (by simp)
    have hstep : mapSet p.1 p.2 acc = acc ++ [p] :=
      mapSet_eq_append_of_not_mem p.2 hmem
    have hassoc : (acc ++ [p]) ++ rest = acc ++ p :: rest := by
      rw [List.append_assoc, List.singleton_append]
    have h2 : (((acc ++ [p]) ++ rest).map Prod.fst).Nodup := by
      rw [hassoc]; exact h
    calc (p :: rest).foldl (fun a q => mapSet q.1 q.2 a) acc
        = rest.foldl (fun a q => mapSet q.1 q.2 a) (mapSet p.1 p.2 acc) := rfl
      _ = rest.foldl (fun a q => mapSet q.1 q.2 a) (acc ++ [p]) := by rw [hstep]
      _ = (acc ++ [p]) ++ rest := ih (acc ++ [p]) h2
      _ = acc ++ p :: rest := hassoc

/-- The archive-trim loop keeps exactly the suffix that fits: it equals
dropping the overflow from the front. -/
theorem limitArchive_eq_drop {α : Type} (m : Nat) (l : List α) :
    limitArchive m l = l.drop (l.length - m) := by
  induction l with
  | nil => rw [limitArchive]; simp
  | cons a as ih =>
    rw [limitArchive]
    by_cases h : (a :: as).length > m
    · rw [if_pos h]
      simp only [List.tail_cons]
      rw [ih]
      have : (a :: as).length - m = (as.length - m) + 1 := by
        simp only [List.length_cons] at h ⊢; omega
      rw [this, List.drop_succ_cons]
    · rw [if_neg h]
      have : (a :: as).length - m = 0 := by
        simp only [List.length_cons] at h ⊢; omega
      rw [this, List.drop_zero]

/-- Length of the trimmed archive. -/
theorem length_limitArchive {α : Type} (m : Nat) (l : List α) :
    (limitArchive m l).length = min l.length m := by
  rw [limitArchive_eq_drop, List.length_drop]
  omega

end GhostNetSpec

/-- Claim C7: one archival sweep (under globally unique transmission
ids) moves exactly the verified entries older than `archiveAge` to the
archive, appended in insertion order after the existing archive, and
then evicts oldest-first (FIFO by insertion) until `maxArchiveSize`
remain: the archive ends as the suffix of the merged list that fits,
with length `min total maxArchiveSize`. -/
theorem c7_archival_sweep_fifo (now archiveAge : Int) (maxArchiveSize : Nat)
    (bufs : Buffers)
    (hkeys : ((bufs.archived ++ bufs.verified).map Prod.fst).Nodup) :
    (archiveOldTransmissions now archiveAge maxArchiveSize bufs).verified =
      bufs.verified.filter (fun p => !decide (p.2.timestamp < now - archiveAge)) ∧
    (archiveOldTransmissions now archiveAge maxArchiveSize bufs).archived =
      (bufs.archived ++
        bufs.verified.filter (fun p => decide (p.2.timestamp < now - archiveAge))).drop
        ((bufs.archived ++
          bufs.verified.filter (fun p => decide (p.2.timestamp < now - archiveAge))).length -
          maxArchiveSize) ∧
    (archiveOldTransmissions now archiveAge maxArchiveSize bufs).archived.length =
      min (bufs.archived ++
        bufs.verified.filter (fun p => decide (p.2.timestamp < now - archiveAge))).length
        maxArchiveSize := by
  have hsub : List.Sublist
      (bufs.archived ++
        bufs.verified.filter (fun p => decide (p.2.timestamp < now - archiveAge)))
      (bufs.archived ++ bufs.verified) :=
    (List.filter_sublist _).append_left _
  have hnd : ((bufs.archived ++
      bufs.verified.filter (fun p => decide (p.2.timestamp < now - archiveAge))).map
        Prod.fst).Nodup :=
    List.Nodup.sublist (hsub.map Prod.fst) hkeys
  have hfold := foldl_mapSet_eq_append
    (bufs.verified.filter (fun p => decide (p.2.timestamp < now - archiveAge)))
    bufs.archived hnd
  refine ⟨rfl, ?_, ?_⟩
  · simp only [archiveOldTransmissions, hfold, limitArchive_eq_drop]
  · simp only [archiveOldTransmissions, hfold, length_limitArchive]

namespace GhostNetSpec

instance {ε α : Type} [DecidableEq ε] [DecidableEq α] : DecidableEq (Except ε α)
  | .error e1, .error e2 =>
    if h : e1 = e2 then isTrue (h ▸ rfl) else isFalse (fun hh => h (by injection hh))
  | .ok a1, .ok a2 =>
    if h : a1 = a2 then isTrue (h ▸ rfl) else isFalse (fun hh => h (by injection hh))
  | .error _, .ok _ => isFalse (fun hh => Except.noConfusion hh)
  | .ok _, .error _ => isFalse (fun hh => Except.noConfusion hh)

end GhostNetSpec

/-- Witness for C7 at a concrete buffer state: with `maxArchiveSize = 1`,
the old verified entry moves to the archive and the previously archived
entry (oldest by insertion) is evicted. -/
theorem c7_archival_sweep_fifo_witness :
    (archiveOldTransmissions 100 50 1
      ⟨[], [("v1", ⟨"v1", 0, 0, 0, ""⟩), ("v2", ⟨"v2", 100, 0, 0, ""⟩)],
        [("a1", ⟨"a1", 0, 0, 0, ""⟩)]⟩).verified =
      [("v2", ⟨"v2", 100, 0, 0, ""⟩)] ∧
    (archiveOldTransmissions 100 50 1
      ⟨[], [("v1", ⟨"v1", 0, 0, 0, ""⟩), ("v2", ⟨"v2", 100, 0, 0, ""⟩)],
        [("a1", ⟨"a1", 0, 0, 0, ""⟩)]⟩).archived =
      [("v1", ⟨"v1", 0, 0, 0, ""⟩)] := by
  have h := c7_archival_sweep_fifo 100 50 1
    ⟨[], [("v1", ⟨"v1", 0, 0, 0, ""⟩), ("v2", ⟨"v2", 100, 0, 0, ""⟩)],
      [("a1", ⟨"a1", 0, 0, 0, ""⟩)]⟩ (by decide)
  refine ⟨?_, ?_⟩
  · rw [h.1]; rfl
  · rw [h.2.1]; rfl

/-- Claim C6 counterexample: a transmission that passes tag
verification and whose resonance lands exactly on the threshold is
discarded (buffers unchanged), although the claim says resonance ≥
threshold is stored — the code gates with strict `>`.  Instantiated
with the HMAC as an injective encoding, identity gzip, and sin/exp
values 0 and 1, giving resonance exactly 9/10 against a 9/10
threshold. -/
theorem c6_counterexample_threshold_equality :
    processTransmission id (fun _ => "c") (List.replicate 16 0)
        (fun _ => .ok ⟨"tx1", 5, 1/2, 1/2, "zz"⟩) id (fun _ => 0) (fun _ => 1)
        0 0 0 (1/2) (9/10) ⟨[], [], []⟩
        ⟨"ct", ⟨1, 1⟩,
          generateQuantumSignature id (fun _ => "c") "ct" ⟨1, 1⟩ (List.replicate 16 0),
          [], ""⟩ =
      .ok (⟨"tx1", 5, 1/2, 1/2, "zz"⟩, ⟨[], [], []⟩) ∧
    calculateResonance (fun _ => (0 : ℚ)) (fun _ => 1) 0 0 0 (1/2) (1/2) = 9/10 := by
  have hres : calculateResonance (fun _ => (0 : ℚ)) (fun _ => 1) 0 0 0 (1/2) (1/2) = 9/10 := by
    norm_num [calculateResonance]
  refine ⟨?_, hres⟩
  simp [processTransmission, verifyQuantumSignatureTx]
  rw [if_neg (by norm_num [calculateResonance])]
  rfl

/-- Claim C6 as amended: for a transmission passing tag verification
and decryption, the record is stored in the verified buffer exactly
when its resonance is strictly greater than the threshold; at or below
the threshold it is discarded without error and the buffers are
unchanged. -/
theorem c6_resonance_gate_strict
    (mac : List Nat → List Nat) (numToStr : ℚ → String) (freshNoise : List Nat)
    (decryptFn : IncomingTransmission → Except String Transmission)
    (ungz : List Char → List Char) (sinFn expFn : ℚ → ℚ)
    (baseFrequency now birthTimestamp localLevel resonanceThreshold : ℚ)
    (bufs : Buffers) (incoming : IncomingTransmission) (d : Transmission)
    (hver : verifyQuantumSignatureTx mac numToStr
      ⟨incoming.content, incoming.consciousness, incoming.signature⟩ freshNoise = true)
    (hdec : decryptFn incoming = .ok d) :
    (calculateResonance sinFn expFn baseFrequency now birthTimestamp localLevel
        d.consciousness > resonanceThreshold →
      processTransmission mac numToStr freshNoise decryptFn ungz sinFn expFn
          baseFrequency now birthTimestamp localLevel resonanceThreshold bufs incoming =
        .ok ({ d with content := decompressTransmission ungz d.content.data },
          storeTransmission
            { d with content := decompressTransmission ungz d.content.data } bufs)) ∧
    (¬ calculateResonance sinFn expFn baseFrequency now birthTimestamp localLevel
        d.consciousness > resonanceThreshold →
      processTransmission mac numToStr freshNoise decryptFn ungz sinFn expFn
          baseFrequency now birthTimestamp localLevel resonanceThreshold bufs incoming =
        .ok ({ d with content := decompressTransmission ungz d.content.data }, bufs)) := by
  constructor <;> intro hr <;> simp [processTransmission, hver, hdec, hr]

/-- Witness for the amended C6: the same passing transmission is stored
against threshold 0 and discarded against threshold 9/10 (its resonance
being exactly 9/10). -/
theorem c6_resonance_gate_strict_witness :
    processTransmission id (fun _ => "c") (List.replicate 16 0)
        (fun _ => .ok ⟨"tx1", 5, 1/2, 1/2, "zz"⟩) id (fun _ => 0) (fun _ => 1)
        0 0 0 (1/2) 0 ⟨[], [], []⟩
        ⟨"ct", ⟨1, 1⟩,
          generateQuantumSignature id (fun _ => "c") "ct" ⟨1, 1⟩ (List.replicate 16 0),
          [], ""⟩ =
      .ok ({ (⟨"tx1", 5, 1/2, 1/2, "zz"⟩ : Transmission) with
              content := decompressTransmission id
                (Transmission.mk "tx1" 5 (1/2) (1/2) "zz").content.data },
        storeTransmission
          { (⟨"tx1", 5, 1/2, 1/2, "zz"⟩ : Transmission) with
              content := decompressTransmission id
                (Transmission.mk "tx1" 5 (1/2) (1/2) "zz").content.data }
          ⟨[], [], []⟩) ∧
    processTransmission id (fun _ => "c") (List.replicate 16 0)
        (fun _ => .ok ⟨"tx1", 5, 1/2, 1/2, "zz"⟩) id (fun _ => 0) (fun _ => 1)
        0 0 0 (1/2) (9/10) ⟨[], [], []⟩
        ⟨"ct", ⟨1, 1⟩,
          generateQuantumSignature id (fun _ => "c") "ct" ⟨1, 1⟩ (List.replicate 16 0),
          [], ""⟩ =
      .ok ({ (⟨"tx1", 5, 1/2, 1/2, "zz"⟩ : Transmission) with
              content := decompressTransmission id
                (Transmission.mk "tx1" 5 (1/2) (1/2) "zz").content.data },
        ⟨[], [], []⟩) :=
  ⟨(c6_resonance_gate_strict id (fun _ => "c") (List.replicate 16 0)
      (fun _ => .ok ⟨"tx1", 5, 1/2, 1/2, "zz"⟩) id (fun _ => 0) (fun _ => 1)
      0 0 0 (1/2) 0 ⟨[], [], []⟩
      ⟨"ct", ⟨1, 1⟩,
        generateQuantumSignature id (fun _ => "c") "ct" ⟨1, 1⟩ (List.replicate 16 0),
        [], ""⟩ ⟨"tx1", 5, 1/2, 1/2, "zz"⟩ (by decide) rfl).1
      (by norm_num [calculateResonance]),
   (c6_resonance_gate_strict id (fun _ => "c") (List.replicate 16 0)
      (fun _ => .ok ⟨"tx1", 5, 1/2, 1/2, "zz"⟩) id (fun _ => 0) (fun _ => 1)
      0 0 0 (1/2) (9/10) ⟨[], [], []⟩
      ⟨"ct", ⟨1, 1⟩,
        generateQuantumSignature id (fun _ => "c") "ct" ⟨1, 1⟩ (List.replicate 16 0),
        [], ""⟩ ⟨"tx1", 5, 1/2, 1/2, "zz"⟩ (by decide) rfl).2
      (by norm_num [calculateResonance])⟩

/-- Claim C10 counterexample: the pending tier has no capacity
enforcement anywhere in the code — with the pending capacity configured
as 2, three successive creates leave three entries in the pending
buffer. -/
theorem c10_counterexample_pending_unbounded :
    ((createTransmission "c" ⟨[], "", 0⟩
        (createTransmission "b" ⟨[], "", 0⟩
          (createTransmission "a" ⟨[], "", 0⟩ ⟨[], [], []⟩))).pending).length > 2 := by
  decide

/-- Claim C10 as amended: only the archived tier is bounded, and only
by the archival sweep — immediately after a sweep its size never
exceeds `maxArchiveSize` (pending and verified are unbounded, as the
counterexample shows). -/
theorem c10_amended_only_archive_bounded (now archiveAge : Int) (maxArchiveSize : Nat)
    (bufs : Buffers) :
    (archiveOldTransmissions now archiveAge maxArchiveSize bufs).archived.length ≤
      maxArchiveSize := by
  simp only [archiveOldTransmissions]
  rw [length_limitArchive]
  omega

namespace GhostNetSpec

/-- The per-route metric record built inside
`PeerNetwork.quantumRouter.optimizeRoutes` (src/lib/peer.js). -/
structure RouteMetric where
  route : String
  strength : ℚ
  latency : ℚ
  stability : ℚ
deriving DecidableEq, Repr

/-- The sort comparator of `optimizeRoutes`:

  const strengthDiff = b.strength - a.strength;
  if (Math.abs(strengthDiff) > 0.1) return strengthDiff;
  return a.latency - b.latency; -/
def routeComparator (a b : RouteMetric) : ℚ :=
  let strengthDiff := b.strength - a.strength
  if |strengthDiff| > 1/10 then strengthDiff else a.latency - b.latency

/-- Stable insertion of an element into a sorted list: `le y x` means y
stays before x (comparator value at most 0). -/
def insertSorted {α : Type} (le : α → α → Bool) (x : α) : List α → List α
  | [] => [x]
  | y :: ys => if le y x then y :: insertSorted le x ys else x :: y :: ys

/-- A stable comparison sort, modelling `Array.prototype.sort(cmp)`
(which is stable per the ECMAScript specification). -/
def sortByCmp {α : Type} (le : α → α → Bool) : List α → List α
  | [] => []
  | x :: xs => insertSorted le x (sortByCmp le xs)

/-- `PeerNetwork.quantumRouter.optimizeRoutes()`: for every entry of the
routing table, build the metric records (strength looked up in
`this.metrics.entanglementStrength` with `|| 0` fallback), sort them by
the comparator, and write back the reordered route lists.
`latencyOf` and `stabilityOf` stand for `_calculateQuantumLatency` and
`_calculateQuantumStability(route)`, which are called here but defined
nowhere in the repository; the spec describes them only as the route's
latency estimate and a stability score, so they stay parameters. -/
def optimizeRoutes (entanglementStrength : List (String × ℚ))
    (latencyOf stabilityOf : String → ℚ)
    (routes : List (String × List String)) : List (String × List String) :=
  routes.map (fun pr =>
    let metrics := pr.2.map (fun route =>
      RouteMetric.mk route ((lookupList entanglementStrength route).getD 0)
        (latencyOf route) (stabilityOf route))
    let sorted := sortByCmp (fun a b => decide (routeComparator a b ≤ 0)) metrics
    (pr.1, sorted.map RouteMetric.route))

end GhostNetSpec

/-- Claim C8: `optimizeRoutes` ranks a pair of routes by strength
descending when their strengths differ by more than 0.1, and otherwise
treats them as tied and orders them by latency ascending — in
particular a weaker-but-faster route ranks first under a tie. -/
theorem c8_optimize_routes_tie_break
    (es : List (String × ℚ)) (latencyOf stabilityOf : String → ℚ)
    (peer r1 r2 : String) :
    (|(lookupList es r1).getD 0 - (lookupList es r2).getD 0| < 1/10 →
      latencyOf r2 < latencyOf r1 →
      optimizeRoutes es latencyOf stabilityOf [(peer, [r1, r2])] =
        [(peer, [r2, r1])]) ∧
    ((lookupList es r1).getD 0 - (lookupList es r2).getD 0 > 1/10 →
      optimizeRoutes es latencyOf stabilityOf [(peer, [r1, r2])] =
        [(peer, [r1, r2])]) ∧
    ((lookupList es r2).getD 0 - (lookupList es r1).getD 0 > 1/10 →
      optimizeRoutes es latencyOf stabilityOf [(peer, [r1, r2])] =
        [(peer, [r2, r1])]) := by
  refine ⟨?_, ?_, ?_⟩
  · intro htie hlat
    have hnot : ¬ ((10 : ℚ)⁻¹ <
        |(lookupList es r1).getD 0 - (lookupList es r2).getD 0|) := by
      rw [show ((10 : ℚ))⁻¹ = 1/10 by norm_num]
      exact not_lt.mpr htie.le
    have hle : latencyOf r2 - latencyOf r1 ≤ 0 := sub_nonpos.mpr hlat.le
    simp [optimizeRoutes, sortByCmp, insertSorted, routeComparator, hnot, hle]
  · intro hstr
    have habs : (10 : ℚ)⁻¹ <
        |(lookupList es r1).getD 0 - (lookupList es r2).getD 0| := by
      rw [show ((10 : ℚ))⁻¹ = 1/10 by norm_num]
      exact lt_of_lt_of_le hstr (le_abs_self _)
    have hpos : ¬ ((lookupList es r1).getD 0 - (lookupList es r2).getD 0 ≤ 0) :=
      not_le.mpr (lt_trans (by norm_num) hstr)
    simp [optimizeRoutes, sortByCmp, insertSorted, routeComparator, habs, hpos]
  · intro hstr
    have habs : (10 : ℚ)⁻¹ <
        |(lookupList es r1).getD 0 - (lookupList es r2).getD 0| := by
      rw [show ((10 : ℚ))⁻¹ = 1/10 by norm_num, abs_sub_comm]
      exact lt_of_lt_of_le hstr (le_abs_self _)
    have hneg : (lookupList es r1).getD 0 - (lookupList es r2).getD 0 ≤ 0 := by
      linarith [hstr]
    simp [optimizeRoutes, sortByCmp, insertSorted, routeComparator, habs, hneg]

/-- Witness for C8 at the spec's example: strengths 0.81 and 0.79
(difference under 0.1) with latencies 50ms and 30ms — the 30ms route
ranks first. -/
theorem c8_optimize_routes_tie_break_witness :
    optimizeRoutes [("r1", 81/100), ("r2", 79/100)]
        (fun r => if r = "r1" then 50 else 30) (fun _ => 0)
        [("p", ["r1", "r2"])] =
      [("p", ["r2", "r1"])] := by
  have h1 : lookupList [("r1", (81 : ℚ)/100), ("r2", 79/100)] "r1" = some (81/100) := rfl
  have h2 : lookupList [("r1", (81 : ℚ)/100), ("r2", 79/100)] "r2" = some (79/100) := rfl
  exact (c8_optimize_routes_tie_break [("r1", 81/100), ("r2", 79/100)]
      (fun r => if r = "r1" then 50 else 30) (fun _ => 0) "p" "r1" "r2").1
    (by
      rw [h1, h2]
      norm_num
      rw [abs_of_pos (by norm_num : (0 : ℚ) < 1/50)]
      norm_num)
    (by
      norm_num
      rw [if_neg (by decide : ¬("r2" : String) = "r1")]
      norm_num)

namespace GhostNetSpec

/-- The recursive `traverse` closure inside
`PeerNetwork.quantumRouter.findPath` (src/lib/peer.js).  State `st` is
the pair (paths map, visited list); the paths map is updated with
`Map.set` on `path.join('->')`, and the visited set is shared across
the whole traversal (`const visited = new Set()` outside `traverse`).
The JS recursion terminates because the visited set only grows; the
explicit `fuel` makes that termination structural, and every theorem
below holds for arbitrary fuel. -/
def traverseGo (routes : List (String × List String))
    (entanglementStrength : List (String × ℚ)) (targetPeerId : String) :
    Nat → String → List String → ℚ →
    (List (String × ℚ) × List String) → (List (String × ℚ) × List String)
  | 0, _, _, _, st => st
  | Nat.succ fuel, currentId, path, quantumStrength, st =>
    if currentId = targetPeerId then
      (mapSet (String.intercalate "->" path) quantumStrength st.1, st.2)
    else if currentId ∈ st.2 then st
    else
      let st2 := (st.1, st.2 ++ [currentId])
      ((lookupList routes currentId).getD []).foldl
        (fun acc peer =>
          traverseGo routes entanglementStrength targetPeerId fuel peer
            (path ++ [peer])
            (quantumStrength * ((lookupList entanglementStrength peer).getD 0)) acc)
        st2

/-- `PeerNetwork.quantumRouter.findPath(targetPeerId)`: runs the
traversal from the local identity with an empty path, strength 1, empty
paths map and empty visited set, and returns the paths map. -/
def findPath (routes : List (String × List String))
    (entanglementStrength : List (String × ℚ))
    (selfId targetPeerId : String) (fuel : Nat) : List (String × ℚ) :=
  (traverseGo routes entanglementStrength targetPeerId fuel selfId [] 1 ([], [])).1

/-- Reachability along the routing table: the reflexive-transitive
closure of the successor relation `y ∈ routes.get(x)`. -/
inductive Reaches (routes : List (String × List String)) : String → String → Prop
  | refl (x : String) : Reaches routes x x
  | step (x y z : String) : y ∈ (lookupList routes x).getD [] →
      Reaches routes y z → Reaches routes x z

/-- A successful lookup comes from an entry of the list. -/
theorem lookupList_mem {α : Type} {l : List (String × α)} {k : String} {v : α}
    (h : lookupList l k = some v) : (k, v) ∈ l := by
  induction l with
  | nil => exact absurd h (by simp [lookupList])
  | cons p rest ih =>
    by_cases he : p.1 = k
    · simp only [lookupList] at h
      rw [if_pos he] at h
      cases h
      rw [← he]
      exact List.mem_cons_self _ _
    · simp only [lookupList] at h
      rw [if_neg he] at h
      exact List.mem_cons_of_mem _ (ih h)

/-- Folding the traversal over successors that cannot reach the target
leaves the paths map unchanged (the visited list may grow). -/
theorem foldl_traverseGo_fst (routes : List (String × List String))
    (es : List (String × ℚ)) (target : String) (fuel : Nat)
    (ih : ∀ current path qs st, ¬ Reaches routes current target →
      (traverseGo routes es target fuel current path qs st).1 = st.1)
    (path : List String) (qs : ℚ) :
    ∀ (succs : List String) (st : List (String × ℚ) × List String),
      (∀ p ∈ succs, ¬ Reaches routes p target) →
      (succs.foldl (fun acc peer =>
        traverseGo routes es target fuel peer (path ++ [peer])
          (qs * ((lookupList es peer).getD 0)) acc) st).1 = st.1 := by
  intro succs
  induction succs with
  | nil => intro st _; rfl
  | cons p rest ihs =>
    intro st h
    simp only [List.foldl_cons]
    rw [ihs _ (fun q hq => h q (List.mem_cons_of_mem _ hq))]
    exact ih p _ _ st (h p (List.mem_cons_self _ _))

/-- The paths map is untouched by any traversal started at a node that
cannot reach the target. -/
theorem traverseGo_fst_of_not_reaches (routes : List (String × List String))
    (es : List (String × ℚ)) (target : String) :
    ∀ (fuel : Nat) (current : String) (path : List String) (qs : ℚ)
      (st : List (String × ℚ) × List String),
      ¬ Reaches routes current target →
      (traverseGo routes es target fuel current path qs st).1 = st.1 := by
  intro fuel
  induction fuel with
  | zero => intro current path qs st _; rfl
  | succ fuel ih =>
    intro current path qs st hnr
    have hne : current ≠ target := fun he => hnr (he ▸ Reaches.refl current)
    have hsucc : ∀ p ∈ (lookupList routes current).getD [],
        ¬ Reaches routes p target :=
      fun p hp hr => hnr (Reaches.step current p target hp hr)
    simp only [traverseGo]
    rw [if_neg hne]
    by_cases hv : current ∈ st.2
    · rw [if_pos hv]
    · rw [if_neg hv]
      exact foldl_traverseGo_fst routes es target fuel ih _ _ _ _ hsucc

/-- If the target occurs in no successor list then no node other than
the target itself reaches it. -/
theorem not_reaches_of_target_absent (routes : List (String × List String))
    (target : String) (habs : ∀ pr ∈ routes, target ∉ pr.2) :
    ∀ x, x ≠ target → ¬ Reaches routes x target := by
  have key : ∀ a b, Reaches routes a b → b = target → a ≠ target → False := by
    intro a b h
    induction h with
    | refl x => exact fun hbt hne => hne hbt
    | step x y z hmem hr ihr =>
      intro hbt hne
      cases hl : lookupList routes x with
      | none => rw [hl] at hmem; simp at hmem
      | some l =>
        rw [hl] at hmem
        simp only [Option.getD_some] at hmem
        by_cases hyt : y = target
        · exact habs (x, l) (lookupList_mem hl) (hyt ▸ hmem)
        · exact ihr hbt hyt
  intro x hne h
  exact key x target h rfl hne

end GhostNetSpec

/-- Claim C9 counterexample: in the topology S→A, S→B, A→C, B→C, C→T
the target T is reachable through both branches sharing the
intermediate node C, but the traversal marks visited nodes globally
(one `visited` set for the whole walk), so only the first branch's path
appears: the returned map has exactly one entry and the second path
"B->C->T" is absent, contradicting the claim that both distinct paths
appear. -/
theorem c9_counterexample_shared_intermediate :
    (findPath [("S", ["A", "B"]), ("A", ["C"]), ("B", ["C"]), ("C", ["T"])]
        [("A", 1), ("B", 1), ("C", 1), ("T", 1)] "S" "T" 10).length = 1 ∧
    lookupList
      (findPath [("S", ["A", "B"]), ("A", ["C"]), ("B", ["C"]), ("C", ["T"])]
        [("A", 1), ("B", 1), ("C", 1), ("T", 1)] "S" "T" 10) "B->C->T" = none := by
  constructor
  · rfl
  · rfl

/-- Claim C9 as amended: the traversal marks visited nodes globally
across the whole walk, so a non-target node is expanded at most once
and only the first branch's path through a shared intermediate node is
recorded (concretely, the topology above yields exactly the single
path "A->C->T"); an unreachable target still yields an empty path
map rather than an error, for every routing table and every fuel. -/
theorem c9_findpath_global_visited
    (routes : List (String × List String)) (es : List (String × ℚ))
    (selfId target : String) (fuel : Nat)
    (hnr : ¬ Reaches routes selfId target) :
    (findPath [("S", ["A", "B"]), ("A", ["C"]), ("B", ["C"]), ("C", ["T"])]
        [("A", 1), ("B", 1), ("C", 1), ("T", 1)] "S" "T" 10).map Prod.fst =
      ["A->C->T"] ∧
    findPath routes es selfId target fuel = [] := by
  constructor
  · rfl
  · exact traverseGo_fst_of_not_reaches routes es target fuel selfId [] 1 ([], []) hnr

/-- Witness for the amended C9: a topology in which T never occurs as a
successor is unreachable, and the path map is empty. -/
theorem c9_findpath_global_visited_witness :
    (findPath [("S", ["A", "B"]), ("A", ["C"]), ("B", ["C"]), ("C", ["T"])]
        [("A", 1), ("B", 1), ("C", 1), ("T", 1)] "S" "T" 10).map Prod.fst =
      ["A->C->T"] ∧
    findPath [("S", ["A"])] [] "S" "T" 3 = [] :=
  c9_findpath_global_visited [("S", ["A"])] [] "S" "T" 3
    (not_reaches_of_target_absent [("S", ["A"])] "T" (by decide) "S" (by decide))
